import Mathlib

/-!
Shallow embedding of `src/code/replication/staleNewsProcedure.py`, the stale
news replication procedure, together with proofs about it.

Modelling conventions:

* Tokens (words after stemming) are `Nat`; a story body is its sequence of
  words (`List Token`).  The external `nltk` collaborators are abstracted:
  `word_tokenize` is the identity on this representation (so string
  concatenation of bodies is list append), the Porter stemmer is a parameter
  `stemW`, and the stop word set is a parameter `stopW`.
* Company identifiers are character lists; the source's `'.' in ticker` test
  is membership of the character `'.'`.
* Timestamps are integers counting seconds; `datetime.timedelta(days=3)`,
  the 72 hour look-back horizon, is `259200`.
* Python float arithmetic on similarity ratios is modelled exactly over `ℚ`.
* A Python exception (the `ZeroDivisionError` raised by `similaritytest` on
  an empty origin) is `none` of an `Option`; callers propagate it exactly
  where the source has no `try`/`except` around the call.
* The `companies` dict is a total map `Ticker → List Story` defaulting to
  `[]` (lazily creating an empty `myLinkedList` on first use is
  unobservable, so no separate "key present" state is kept).
* `myLinkedList` (sentinel head node, `nextNode` cursor, `cut`) is
  represented by the list of its values, newest first.  `cut` assigns
  `curr.nextNode = None`, i.e. it keeps the node the cursor stands on and
  drops the nodes after it.
* `heapq.heappush` is translated instruction for instruction
  (`_siftdown`).  `heapq.nlargest(5, maxpq)` is modelled by its documented
  contract — equivalent to `sorted(maxpq, reverse=True)[:5]`, the stable
  descending sort of the heap's backing array (Mathlib's `insertionSort` is
  a stable sort).
-/

namespace StaleNews

set_option maxRecDepth 16000

abbrev Token := Nat

abbrev Ticker := List Char

/-- `datetime.timedelta(days=3)` in seconds: the 72 hour look-back horizon. -/
def span72h : Int := 259200

/-- The per-story state kept by the procedure (class `Story`).  `sim` is the
class attribute defaulting to `-1`; the only assignment to it
(`from_other`) is never called, so every story the procedure stores carries
`-1`, but the field is kept because `Story.__lt__` reads it. -/
structure Story where
  accessionNumber : Nat
  displayDate : Int
  tickers : List Ticker
  text : List Token
  textWords : List Token
  sim : Int := -1
deriving DecidableEq

/-- The fields the external parsers (`accessionNum`, `displayDate`,
`tickercreator`, `article`) extract from one `etree`. -/
structure RawStory where
  accessionNumber : Nat
  displayDate : Int
  tickers : List Ticker
  text : List Token
deriving DecidableEq

/-- One row written by `writer.writerow(p)` in `procedure`:
`DATE_EST, STORY_ID, TICKER, CLOSEST_ID, CLOSEST_SCORE, TOTAL_OVERLAP,
IS_OLD, IS_REPRINT, IS_RECOMB`. -/
structure OutRec where
  dateEST : Int
  storyId : Nat
  ticker : Ticker
  closestId : Option Nat
  closestScore : Option ℚ
  totalOverlap : ℚ
  isOld : Bool
  isReprint : Bool
  isRecomb : Bool
deriving DecidableEq

/-- `stem(tokenizedWords)`: stem every word. -/
def stem (stemW : Token → Token) (tokenizedWords : List Token) : List Token :=
  tokenizedWords.map stemW

/-- `stop(tokenizedWords)`: drop stop words and collapse duplicates.  The
source accumulates the survivors into a Python `set` and lists it; only
membership and cardinality of the result are ever consumed, so the
first-occurrence order of `dedup` is a faithful listing. -/
def stop (stopW : List Token) (tokenizedWords : List Token) : List Token :=
  (tokenizedWords.filter (fun w => !stopW.contains w)).dedup

/-- `intersection(lst1, lst2)`.  The `None` guard of the source never fires
in this program: token lists are always present. -/
def intersection (lst1 lst2 : List Token) : List Token :=
  lst1.filter (fun v => lst2.contains v)

/-- `similaritytest(orig, B)`; `none` is the `ZeroDivisionError` raised when
`orig.textWords` is empty. -/
def similaritytest (orig B : Story) : Option ℚ :=
  if orig.textWords.length = 0 then none
  else some ((intersection orig.textWords B.textWords).length /
             (orig.textWords.length : ℚ))

/-- `Story(et)`: build the retained story state from the parsed fields
(`textWords = stop(stem(word_tokenize(article(et))))`). -/
def mkStory (stemW : Token → Token) (stopW : List Token) (r : RawStory) :
    Story :=
  { accessionNumber := r.accessionNumber
    displayDate := r.displayDate
    tickers := r.tickers
    text := r.text
    textWords := stop stopW (stem stemW r.text) }

/-- `Story(neighbor = words)`: the synthetic merged-neighbor story; all
other fields keep their class defaults. -/
def mkNeighborStory (stemW : Token → Token) (stopW : List Token)
    (neighbor : List Token) : Story :=
  { accessionNumber := 0
    displayDate := 0
    tickers := []
    text := neighbor
    textWords := stop stopW (stem stemW neighbor) }

/-- `stale(origStory, neighborStories, simtest)`.  The quadruple is
`(IS_OLD, IS_REPRINT, IS_RECOMB, TOTAL_OVERLAP)`; the `r[i]` assignments of
the source are rendered as the four possible result values. -/
def stale (stemW : Token → Token) (stopW : List Token)
    (simtest : Story → Story → Option ℚ) (origStory : Story)
    (neighborStories : List (ℚ × Story)) : Option (Bool × Bool × Bool × ℚ) :=
  match neighborStories with
  | [] => some (false, false, false, 0)
  | (intersectionmax, _) :: _ =>
    let neighborWords := (neighborStories.map (fun p => p.2.text)).flatten
    match simtest origStory (mkNeighborStory stemW stopW neighborWords) with
    | none => none
    | some intersectionall =>
      if (3 : ℚ)/5 ≤ intersectionall then
        if (4 : ℚ)/5 ≤ intersectionmax then
          some (true, true, false, intersectionall)
        else
          some (true, false, true, intersectionall)
      else
        some (false, false, false, intersectionall)

/-- `Story.__lt__` on two stories (inside the heap both operands are
stories, never the `int` branch). -/
def storyLt (a b : Story) : Bool := decide (a.sim < b.sim)

/-- Python tuple `<` on heap entries `(sim, story)`: compare the scores,
then (on equal scores, the operands being distinct objects) the stories. -/
def pairLt (p q : ℚ × Story) : Bool :=
  decide (p.1 < q.1) || (decide (p.1 = q.1) && storyLt p.2 q.2)

/-- `heapq._siftdown(heap, 0, pos)` with the freshly appended `newitem`
factored out: bubble `newitem` up from `pos` while it is `<` its parent. -/
def siftdownAux (lt : α → α → Bool) (newitem : α) (heap : List α)
    (pos : Nat) : List α :=
  if _h : 0 < pos then
    match heap.get? ((pos - 1) / 2) with
    | some parent =>
      if lt newitem parent then
        siftdownAux lt newitem (heap.set pos parent) ((pos - 1) / 2)
      else heap.set pos newitem
    | none => heap.set pos newitem
  else heap.set pos newitem
termination_by pos
decreasing_by exact Nat.lt_of_le_of_lt (Nat.div_le_self _ _) (Nat.sub_lt _h one_pos)

/-- `heapq.heappush(heap, item)`: append, then sift up from the last slot. -/
def heappush (lt : α → α → Bool) (heap : List α) (item : α) : List α :=
  siftdownAux lt item (heap ++ [item]) heap.length

/-- The order in which `sorted(·, reverse=True)` lays out heap entries:
`p` may stand before `q` iff `p` is not `<` `q`. -/
def notPairLt (p q : ℚ × Story) : Prop := pairLt p q = false

instance : DecidableRel notPairLt := fun p q => by
  unfold notPairLt
  infer_instance

/-- `heapq.nlargest(5, maxpq)`, by its documented contract: equivalent to
`sorted(maxpq, reverse=True)[:5]`, the stable descending sort of the heap's
backing array truncated to five entries (`insertionSort` is stable). -/
def nlargest5 (maxpq : List (ℚ × Story)) : List (ℚ × Story) :=
  (List.insertionSort notPairLt maxpq).take 5

/-- The `while (compStory != None)` traversal of `staleNewsProcedure`:
walk the window newest to oldest; on the first entry older than 72 hours,
`cut` (keep that entry, drop the rest) and stop; otherwise score the entry
and push `(sim, entry)` onto the heap.  Returns the heap and the window as
the traversal leaves it; `none` is a propagated scoring exception. -/
def traverseWindow (simtest : Story → Story → Option ℚ) (story : Story) :
    List Story → List (ℚ × Story) → Option (List (ℚ × Story) × List Story)
  | [], maxpq => some (maxpq, [])
  | compStory :: rest, maxpq =>
    if story.displayDate - compStory.displayDate > span72h then
      some (maxpq, [compStory])
    else
      match simtest story compStory with
      | none => none
      | some sim =>
        match traverseWindow simtest story rest
            (heappush pairLt maxpq (sim, compStory)) with
        | none => none
        | some (pq, w) => some (pq, compStory :: w)

/-- `staleNewsProcedure(ticker, story, companies, simtest)`, with the state
threading made explicit: takes the company's window, returns the output row
and the new window (traversal result with the story prepended by
`addFront`). -/
def staleNewsProcedure (stemW : Token → Token) (stopW : List Token)
    (simtest : Story → Story → Option ℚ) (ticker : Ticker) (story : Story)
    (window : List Story) : Option (OutRec × List Story) :=
  match traverseWindow simtest story window [] with
  | none => none
  | some (maxpq, window') =>
    let largestFive := nlargest5 maxpq
    match stale stemW stopW simtest story largestFive with
    | none => none
    | some orr =>
      let closest : Option Nat × Option ℚ :=
        match largestFive with
        | [] => (none, none)
        | (s, st) :: _ => (some st.accessionNumber, some s)
      some ({ dateEST := story.displayDate
              storyId := story.accessionNumber
              ticker := ticker
              closestId := closest.1
              closestScore := closest.2
              totalOverlap := orr.2.2.2
              isOld := orr.1
              isReprint := orr.2.1
              isRecomb := orr.2.2.1 },
            story :: window')

/-- The `for ticker in story.tickers` loop of `procedure`: skip tickers
containing `'.'`, otherwise run `staleNewsProcedure` on that company's
window and write the row.  Returns the rows written, the updated registry,
and whether an exception escaped (aborting with the rows written so far). -/
def processTickers (stemW : Token → Token) (stopW : List Token)
    (simtest : Story → Story → Option ℚ) (story : Story) :
    List Ticker → (Ticker → List Story) →
    List OutRec × (Ticker → List Story) × Bool
  | [], companies => ([], companies, false)
  | ticker :: rest, companies =>
    if ticker.contains '.' then
      processTickers stemW stopW simtest story rest companies
    else
      match staleNewsProcedure stemW stopW simtest ticker story
          (companies ticker) with
      | none => ([], companies, true)
      | some (row, window') =>
        let companies' := Function.update companies ticker window'
        let r := processTickers stemW stopW simtest story rest companies'
        (row :: r.1, r.2.1, r.2.2)

/-- The per-story loop of `procedure`: build the story, skip it when it has
no tickers, otherwise process its tickers; an escaped exception stops the
stream with the rows written so far. -/
def processStories (stemW : Token → Token) (stopW : List Token)
    (simtest : Story → Story → Option ℚ) :
    List RawStory → (Ticker → List Story) → List OutRec × Bool
  | [], _ => ([], false)
  | r :: rest, companies =>
    let story := mkStory stemW stopW r
    if story.tickers = [] then
      processStories stemW stopW simtest rest companies
    else
      let p := processTickers stemW stopW simtest story story.tickers companies
      if p.2.2 then (p.1, true)
      else
        let q := processStories stemW stopW simtest rest p.2.1
        (p.1 ++ q.1, q.2)

/-- `procedure(...)` restricted to its core: the stream of parsed stories
in, the csv rows out (file iteration and csv serialisation are the external
collaborators).  The second component records whether an exception aborted
the run. -/
def procedure (stemW : Token → Token) (stopW : List Token)
    (simtest : Story → Story → Option ℚ) (stories : List RawStory) :
    List OutRec × Bool :=
  processStories stemW stopW simtest stories (fun _ => [])

/-! ### Concrete inputs used by counterexamples and witnesses -/

def tickA : Ticker := ['A']

/-- In-window entry 72+ hours older than `cxLateStory`. -/
def cxStaleEntry : Story := mkStory id [] ⟨7, 0, [tickA], [1, 2]⟩

/-- An even older in-window entry behind `cxStaleEntry`. -/
def cxOlderEntry : Story := mkStory id [] ⟨6, -500, [tickA], [9]⟩

/-- A story arriving 80 hours (288000 s) after `cxStaleEntry`. -/
def cxLateStory : Story := mkStory id [] ⟨8, 288000, [tickA], [3, 4]⟩

/-- Newest window entry: shares 5 of the 10 tokens of `c4s`. -/
def c4e1 : Story := mkStory id [] ⟨1, 999, [tickA], [1, 2, 3, 4, 5]⟩

/-- Older entry with the same score against `c4s` as `c4e1`. -/
def c4e2 : Story := mkStory id [] ⟨2, 998, [tickA], [1, 2, 3, 4, 5]⟩

/-- Oldest entry, sharing only 1 of the 10 tokens of `c4s`. -/
def c4e3 : Story := mkStory id [] ⟨3, 997, [tickA], [1]⟩

/-- The incoming story for the tie-break experiment. -/
def c4s : Story := mkStory id [] ⟨10, 1000, [tickA], [1, 2, 3, 4, 5, 6, 7, 8, 9, 10]⟩

/-- A story whose ticker list names the same company twice. -/
def c8dup : RawStory := ⟨21, 0, [tickA, tickA], [1, 2, 3]⟩

/-- First story of the abort scenario: two tokens, company `A`. -/
def c3r1 : RawStory := ⟨31, 0, [tickA], [1, 2]⟩

/-- Second story of the abort scenario: *empty* body, company `A`. -/
def c3r2 : RawStory := ⟨32, 10, [tickA], []⟩

/-- Third story of the abort scenario, never reached by the run. -/
def c3r3 : RawStory := ⟨33, 20, [tickA], [3]⟩

/-- Registry state after `c3r1` was processed: its story sits in `A`'s window. -/
def c3companies : Ticker → List Story :=
  fun t => if t = tickA then [mkStory id [] c3r1] else []

def c7abc : Ticker := ['A', 'B', 'C']

def c7abcO : Ticker := ['A', 'B', 'C', '.', 'O']

/-- A story tagged with a primary ticker and its dotted variant. -/
def c7raw : RawStory := ⟨41, 0, [c7abc, c7abcO], [1, 2]⟩

/-- A prior story whose tokens coincide with those of `c2orig`. -/
def c2nb : Story := mkStory id [] ⟨61, 0, [tickA], [1, 2, 3, 4, 5, 6, 7, 8, 9, 10]⟩

/-- The origin story for the classifier witness. -/
def c2orig : Story := mkStory id [] ⟨62, 100, [tickA], [1, 2, 3, 4, 5, 6, 7, 8, 9, 10]⟩

/-- A story carrying one primary and one dotted ticker, for the
record-per-occurrence witness. -/
def c9story : Story := mkStory id [] ⟨71, 0, [tickA, c7abcO], [1, 2]⟩

/-! ### Permutation facts about the heap -/

lemma get_cons_set_perm {α : Type _} :
    ∀ (l : List α) (i : Nat) (hi : i < l.length) (x : α),
      (l.get ⟨i, hi⟩ :: l.set i x).Perm (x :: l) := by
  intro l
  induction l with
  | nil => intro i hi x; simp at hi
  | cons a t ih =>
    intro i hi x
    cases i with
    | zero =>
      simpa using List.Perm.swap x a t
    | succ j =>
      have hj : j < t.length := by simpa using hi
      have h1 : (t.get ⟨j, hj⟩ :: a :: t.set j x).Perm
          (a :: t.get ⟨j, hj⟩ :: t.set j x) := List.Perm.swap a _ _
      have h2 : (a :: t.get ⟨j, hj⟩ :: t.set j x).Perm (a :: x :: t) :=
        (ih j hj x).cons a
      have h3 : (a :: x :: t).Perm (x :: a :: t) := List.Perm.swap x a t
      simpa using (h1.trans h2).trans h3

lemma set_set_swap_perm {α : Type _} (l : List α) (i j : Nat) (x : α)
    (hne : j ≠ i) (hi : i < l.length) (hj : j < l.length) :
    ((l.set i (l.get ⟨j, hj⟩)).set j x).Perm (l.set i x) := by
  set gj := l.get ⟨j, hj⟩ with hgj
  set L := l.set i gj with hL
  have hLlen : L.length = l.length := by simp [hL]
  have hjL : j < L.length := by simpa [hLlen] using hj
  have hLj : L.get ⟨j, hjL⟩ = gj := by
    simp only [hL, List.get_eq_getElem, List.getElem_set]
    simp [Ne.symm hne, hgj]
  have A1 : (gj :: L.set j x).Perm (x :: L) := by
    have h := get_cons_set_perm L j hjL x
    rw [hLj] at h
    exact h
  have A2 : (l.get ⟨i, hi⟩ :: L).Perm (gj :: l) := get_cons_set_perm l i hi gj
  have A3 : (l.get ⟨i, hi⟩ :: l.set i x).Perm (x :: l) := get_cons_set_perm l i hi x
  set gi := l.get ⟨i, hi⟩ with hgi
  have chain : (gi :: gj :: L.set j x).Perm (gi :: gj :: l.set i x) := by
    have c1 : (gi :: gj :: L.set j x).Perm (gi :: x :: L) := A1.cons gi
    have c2 : (gi :: x :: L).Perm (x :: gi :: L) := List.Perm.swap x gi L
    have c3 : (x :: gi :: L).Perm (x :: gj :: l) := A2.cons x
    have c4 : (x :: gj :: l).Perm (gj :: x :: l) := List.Perm.swap gj x l
    have c5 : (gj :: x :: l).Perm (gj :: gi :: l.set i x) := (A3.symm.cons gj)
    have c6 : (gj :: gi :: l.set i x).Perm (gi :: gj :: l.set i x) :=
      List.Perm.swap gi gj _
    exact ((((c1.trans c2).trans c3).trans c4).trans c5).trans c6
  exact (chain.cons_inv).cons_inv

lemma siftdownAux_perm {α : Type _} (lt : α → α → Bool) (x : α) :
    ∀ (pos : Nat) (heap : List α), pos < heap.length →
      (siftdownAux lt x heap pos).Perm (heap.set pos x) := by
  intro pos
  induction pos using Nat.strong_induction_on with
  | _ pos ih =>
    intro heap hpos
    rw [siftdownAux]
    by_cases h0 : 0 < pos
    · simp only [h0, dif_pos]
      have hpp : (pos - 1) / 2 < pos :=
        Nat.lt_of_le_of_lt (Nat.div_le_self _ _) (Nat.sub_lt h0 one_pos)
      have hlt : (pos - 1) / 2 < heap.length := hpp.trans hpos
      have hget : heap.get? ((pos - 1) / 2) = some (heap.get ⟨(pos - 1) / 2, hlt⟩) :=
        List.get?_eq_get hlt
      rw [hget]
      by_cases hcmp : lt x (heap.get ⟨(pos - 1) / 2, hlt⟩) = true
      · simp only [hcmp, if_pos]
        have hlen : (pos - 1) / 2 < (heap.set pos (heap.get ⟨(pos - 1) / 2, hlt⟩)).length := by
          simpa using hlt
        have := ih _ hpp (heap.set pos (heap.get ⟨(pos - 1) / 2, hlt⟩)) hlen
        refine this.trans ?_
        exact set_set_swap_perm heap pos ((pos - 1) / 2) x (Nat.ne_of_lt hpp) hpos hlt
      · simp only [hcmp]
        simp
    · simp only [h0, dif_neg]
      exact List.Perm.refl _

lemma set_last_append {α : Type _} (l : List α) (x : α) :
    (l ++ [x]).set l.length x = l ++ [x] := by
  induction l with
  | nil => rfl
  | cons a t ih =>
    show a :: ((t ++ [x]).set t.length x) = a :: (t ++ [x])
    rw [ih]

lemma heappush_perm {α : Type _} (lt : α → α → Bool) (heap : List α) (item : α) :
    (heappush lt heap item).Perm (item :: heap) := by
  unfold heappush
  have hlen : heap.length < (heap ++ [item]).length := by simp
  have h := siftdownAux_perm lt item heap.length (heap ++ [item]) hlen
  rw [set_last_append] at h
  exact h.trans (List.perm_append_singleton item heap)

/-! ### What the window traversal does -/

/-- Everything the `while` loop guarantees: the surviving window is a prefix
of the old one, every survivor except possibly the last is within the
72 hour horizon, and the heap holds (a permutation of) genuinely scored
in-window entries on top of the incoming accumulator. -/
lemma traverseWindow_spec (simtest : Story → Story → Option ℚ) (story : Story) :
    ∀ (w : List Story) (acc pq : List (ℚ × Story)) (w' : List Story),
      traverseWindow simtest story w acc = some (pq, w') →
      (∃ t, w' ++ t = w) ∧
      (∀ e ∈ w'.dropLast, story.displayDate - e.displayDate ≤ span72h) ∧
      (∃ ps, pq.Perm (ps ++ acc) ∧
        ∀ p ∈ ps, p.2 ∈ w ∧ simtest story p.2 = some p.1) := by
  intro w
  induction w with
  | nil =>
    intro acc pq w' h
    simp only [traverseWindow, Option.some.injEq, Prod.mk.injEq] at h
    obtain ⟨hpq, hw'⟩ := h
    subst hpq; subst hw'
    exact ⟨⟨[], rfl⟩, by simp, ⟨[], by simp, by simp⟩⟩
  | cons c rest ih =>
    intro acc pq w' h
    simp only [traverseWindow] at h
    by_cases hold : story.displayDate - c.displayDate > span72h
    · rw [if_pos hold] at h
      simp only [Option.some.injEq, Prod.mk.injEq] at h
      obtain ⟨hpq, hw'⟩ := h
      subst hpq; subst hw'
      exact ⟨⟨rest, rfl⟩, by simp, ⟨[], by simp, by simp⟩⟩
    · rw [if_neg hold] at h
      split at h
      · exact absurd h (by simp)
      · rename_i sim hsim
        split at h
        · exact absurd h (by simp)
        · rename_i pq0 w0 hrec
          simp only [Option.some.injEq, Prod.mk.injEq] at h
          obtain ⟨hpq, hw'⟩ := h
          subst hpq; subst hw'
          obtain ⟨⟨t0, ht0⟩, hfresh, ⟨ps0, hperm, hmem⟩⟩ := ih _ _ _ hrec
          refine ⟨⟨t0, by rw [List.cons_append, ht0]⟩, ?_, ?_⟩
          · intro e he
            cases w0 with
            | nil => simp at he
            | cons d ds =>
              rw [List.dropLast_cons₂] at he
              rcases List.mem_cons.mp he with rfl | he'
              · exact le_of_not_lt hold
              · exact hfresh e he'
          · refine ⟨ps0 ++ [(sim, c)], ?_, ?_⟩
            · have h1 : (heappush pairLt acc (sim, c)).Perm ((sim, c) :: acc) :=
                heappush_perm _ _ _
              have h2 : (ps0 ++ heappush pairLt acc (sim, c)).Perm
                  (ps0 ++ ((sim, c) :: acc)) := List.Perm.append_left ps0 h1
              have h3 : ps0 ++ ((sim, c) :: acc) = (ps0 ++ [(sim, c)]) ++ acc := by
                simp
              exact (hperm.trans h2).trans (by rw [h3])
            · intro p hp
              rcases List.mem_append.mp hp with hmem0 | hsingle
              · exact ⟨List.mem_cons_of_mem _ (hmem p hmem0).1, (hmem p hmem0).2⟩
              · have : p = (sim, c) := by simpa using hsingle
                subst this
                exact ⟨List.mem_cons_self _ _, hsim⟩

/-! ### The order `nlargest` lays its result out in -/

lemma pairLt_eq_true_iff (p q : ℚ × Story) :
    pairLt p q = true ↔ (p.1 < q.1 ∨ (p.1 = q.1 ∧ p.2.sim < q.2.sim)) := by
  simp [pairLt, storyLt]

lemma notPairLt_iff (p q : ℚ × Story) :
    notPairLt p q ↔ q.1 ≤ p.1 ∧ (p.1 = q.1 → q.2.sim ≤ p.2.sim) := by
  unfold notPairLt
  rw [show (pairLt p q = false) ↔ ¬(pairLt p q = true) by simp]
  rw [pairLt_eq_true_iff]
  push_neg
  tauto

instance : IsTotal (ℚ × Story) notPairLt := by
  constructor
  intro p q
  rw [notPairLt_iff, notPairLt_iff]
  rcases lt_trichotomy p.1 q.1 with h | h | h
  · exact Or.inr ⟨le_of_lt h, fun he => absurd he.symm (ne_of_lt h)⟩
  · rcases le_total q.2.sim p.2.sim with hs | hs
    · exact Or.inl ⟨le_of_eq h.symm, fun _ => hs⟩
    · exact Or.inr ⟨le_of_eq h, fun _ => hs⟩
  · exact Or.inl ⟨le_of_lt h, fun he => absurd he.symm (ne_of_lt h)⟩

instance : IsTrans (ℚ × Story) notPairLt := by
  constructor
  intro p q r hpq hqr
  rw [notPairLt_iff] at hpq hqr ⊢
  obtain ⟨h1, h2⟩ := hpq
  obtain ⟨h3, h4⟩ := hqr
  refine ⟨le_trans h3 h1, fun he => ?_⟩
  have hq1 : q.1 = r.1 := le_antisymm (he ▸ h1) h3
  have hp1 : p.1 = q.1 := he.trans hq1.symm
  exact le_trans (h4 hq1) (h2 hp1)

lemma nlargest5_sorted (l : List (ℚ × Story)) :
    List.Sorted notPairLt (nlargest5 l) :=
  (List.sorted_insertionSort notPairLt l).sublist (List.take_sublist _ _)

lemma nlargest5_split_perm (l : List (ℚ × Story)) :
    (nlargest5 l ++ (List.insertionSort notPairLt l).drop 5).Perm l := by
  unfold nlargest5
  rw [List.take_append_drop]
  exact List.perm_insertionSort notPairLt l

lemma nlargest5_cross (l : List (ℚ × Story)) :
    ∀ p ∈ nlargest5 l, ∀ q ∈ (List.insertionSort notPairLt l).drop 5, q.1 ≤ p.1 := by
  have hs : List.Sorted notPairLt
      (nlargest5 l ++ (List.insertionSort notPairLt l).drop 5) := by
    unfold nlargest5
    rw [List.take_append_drop]
    exact List.sorted_insertionSort notPairLt l
  intro p hp q hq
  have := (List.pairwise_append.mp hs).2.2 p hp q hq
  exact ((notPairLt_iff p q).mp this).1

lemma nlargest5_mem (l : List (ℚ × Story)) :
    ∀ p ∈ nlargest5 l, p ∈ l := by
  intro p hp
  exact (nlargest5_split_perm l).mem_iff.mp (List.mem_append.mpr (Or.inl hp))

/-! ### Decomposing one run of `staleNewsProcedure` -/

lemma staleNewsProcedure_shape (stemW : Token → Token) (stopW : List Token)
    (simtest : Story → Story → Option ℚ) (tick : Ticker) (story : Story)
    (w : List Story) (rec : OutRec) (wNew : List Story)
    (h : staleNewsProcedure stemW stopW simtest tick story w = some (rec, wNew)) :
    ∃ pq w' orr, traverseWindow simtest story w [] = some (pq, w') ∧
      stale stemW stopW simtest story (nlargest5 pq) = some orr ∧
      wNew = story :: w' ∧ rec.dateEST = story.displayDate ∧
      rec.storyId = story.accessionNumber ∧ rec.ticker = tick := by
  unfold staleNewsProcedure at h
  split at h
  · exact absurd h (by simp)
  · rename_i pq w' htrav
    dsimp only at h
    split at h
    · exact absurd h (by simp)
    · rename_i orr hstale
      simp only [Option.some.injEq, Prod.mk.injEq] at h
      obtain ⟨hrec, hw⟩ := h
      exact ⟨pq, w', orr, htrav, hstale, hw.symm, by rw [← hrec],
        by rw [← hrec], by rw [← hrec]⟩

/-! ### Claim C1 -/

/-- Claim C1, counterexample: processing `cxLateStory` against the window
`[cxStaleEntry, cxOlderEntry]` (both older than 72 hours) leaves
`cxStaleEntry` in the window even though it violates the 72 hour bound —
`cut` keeps the node the cursor stands on, so the first too-old entry is
retained and only the entries strictly older than it are dropped. -/
theorem C1_stale_entry_survives :
    (staleNewsProcedure id [] similaritytest tickA cxLateStory
      [cxStaleEntry, cxOlderEntry]).map (fun p => p.2) =
      some [cxLateStory, cxStaleEntry] ∧
    cxLateStory.displayDate - cxStaleEntry.displayDate > span72h := by
  constructor
  · decide
  · decide

/-- Claim C1 (amended): after `staleNewsProcedure` for story `s`, the new
window is `s` prepended to a prefix of the old window, and every surviving
entry *except possibly the last* satisfies
`s.timestamp - e.timestamp ≤ 72h`; the traversal keeps the first entry
older than 72 hours and drops only the entries strictly older than it. -/
theorem C1_window_prune_bound (stemW : Token → Token) (stopW : List Token)
    (simtest : Story → Story → Option ℚ) (tick : Ticker) (story : Story)
    (w : List Story) (rec : OutRec) (wNew : List Story)
    (h : staleNewsProcedure stemW stopW simtest tick story w = some (rec, wNew)) :
    ∃ w' t, wNew = story :: w' ∧ w' ++ t = w ∧
      ∀ e ∈ w'.dropLast, story.displayDate - e.displayDate ≤ span72h := by
  obtain ⟨pq, w', orr, htrav, hstale, hw, _⟩ :=
    staleNewsProcedure_shape stemW stopW simtest tick story w rec wNew h
  obtain ⟨⟨t, ht⟩, hfresh, _⟩ :=
    traverseWindow_spec simtest story w [] pq w' htrav
  exact ⟨w', t, hw, ht, hfresh⟩

/-- Claim C1, witness: the amended bound evaluated on the concrete run of
`C1_stale_entry_survives`. -/
theorem C1_window_prune_bound_witness :
    ∃ w' t, [cxLateStory, cxStaleEntry] = cxLateStory :: w' ∧
      w' ++ t = [cxStaleEntry, cxOlderEntry] ∧
      ∀ e ∈ w'.dropLast, cxLateStory.displayDate - e.displayDate ≤ span72h :=
  C1_window_prune_bound id [] similaritytest tickA cxLateStory
    [cxStaleEntry, cxOlderEntry]
    ⟨288000, 8, tickA, none, none, 0, false, false, false⟩
    [cxLateStory, cxStaleEntry] (by decide)

/-! ### Claim C10 -/

/-- Claim C10: immediately after the neighbor-selection traversal the new
window is the story prepended to a prefix of the old window (so removed
entries never reappear), at most one surviving entry is older than
72 hours, and such an entry can only be the last (oldest) survivor. -/
theorem C10_at_most_one_stale (stemW : Token → Token) (stopW : List Token)
    (simtest : Story → Story → Option ℚ) (tick : Ticker) (story : Story)
    (w : List Story) (rec : OutRec) (wNew : List Story)
    (h : staleNewsProcedure stemW stopW simtest tick story w = some (rec, wNew)) :
    ∃ w' t, wNew = story :: w' ∧ w' ++ t = w ∧
      (w'.filter (fun e =>
        decide (story.displayDate - e.displayDate > span72h))).length ≤ 1 ∧
      ∀ e ∈ w', story.displayDate - e.displayDate > span72h →
        w'.getLast? = some e := by
  obtain ⟨pq, w', orr, htrav, hstale, hw, _⟩ :=
    staleNewsProcedure_shape stemW stopW simtest tick story w rec wNew h
  obtain ⟨⟨t, ht⟩, hfresh, _⟩ :=
    traverseWindow_spec simtest story w [] pq w' htrav
  refine ⟨w', t, hw, ht, ?_, ?_⟩
  · by_cases hnil : w' = []
    · subst hnil; simp
    · have hdecomp := List.dropLast_append_getLast hnil
      rw [← hdecomp, List.filter_append, List.length_append]
      have h1 : (w'.dropLast.filter fun e =>
          decide (story.displayDate - e.displayDate > span72h)) = [] := by
        rw [List.filter_eq_nil_iff]
        intro e he
        simp only [decide_eq_true_eq, not_lt]
        exact hfresh e he
      rw [h1]
      have h2 := List.length_filter_le
        (fun e => decide (story.displayDate - e.displayDate > span72h))
        [w'.getLast hnil]
      simpa using h2
  · intro e he hold
    by_cases hnil : w' = []
    · subst hnil; simp at he
    · have hdecomp := List.dropLast_append_getLast hnil
      have hnotdl : e ∉ w'.dropLast := fun hmem =>
        absurd hold (not_lt.mpr (hfresh e hmem))
      have he2 : e ∈ w'.dropLast ++ [w'.getLast hnil] := by
        rw [hdecomp]; exact he
      rcases List.mem_append.mp he2 with h' | h'
      · exact absurd h' hnotdl
      · have heq : e = w'.getLast hnil := by simpa using h'
        rw [heq]
        exact List.getLast?_eq_getLast w' hnil

/-- Claim C10, witness: the invariant evaluated on a concrete run in which
one too-old entry does survive (as the last entry). -/
theorem C10_at_most_one_stale_witness :
    ∃ w' t, [cxLateStory, cxStaleEntry] = cxLateStory :: w' ∧
      w' ++ t = [cxStaleEntry, cxOlderEntry] ∧
      (w'.filter (fun e =>
        decide (cxLateStory.displayDate - e.displayDate > span72h))).length ≤ 1 ∧
      ∀ e ∈ w', cxLateStory.displayDate - e.displayDate > span72h →
        w'.getLast? = some e :=
  C10_at_most_one_stale id [] similaritytest tickA cxLateStory
    [cxStaleEntry, cxOlderEntry]
    ⟨288000, 8, tickA, none, none, 0, false, false, false⟩
    [cxLateStory, cxStaleEntry] (by decide)

/-! ### Claim C8 -/

/-- Claim C8, counterexample: a story tagged with the same company twice is
processed twice for that company; the first pass inserts it into the
window, so in the second pass the story *is* among its own candidate
neighbors — the second record for the very same (story, company) pair
reports the story itself (id 21) as closest neighbor with score 1. -/
theorem C8_story_meets_itself :
    (procedure id [] similaritytest [c8dup]).1.map
      (fun r => (r.storyId, r.ticker, r.closestId, r.closestScore)) =
      [(21, tickA, none, none), (21, tickA, some 21, some 1)] := by
  with_unfolding_all decide

/-- Claim C8 (amended): within a single run of `staleNewsProcedure` the
story is prepended to the window only after neighbor selection and
classification: every selected neighbor is an entry of the pre-insertion
window with its genuine score, so as long as the story is not already in
that window (true on the first processing of each (story, company) pair,
false only after a duplicate company tag re-inserts it) it is never among
its own candidate neighbors. -/
theorem C8_insert_after_selection (stemW : Token → Token) (stopW : List Token)
    (simtest : Story → Story → Option ℚ) (tick : Ticker) (story : Story)
    (w : List Story) (rec : OutRec) (wNew : List Story)
    (h : staleNewsProcedure stemW stopW simtest tick story w = some (rec, wNew)) :
    ∃ pq w', traverseWindow simtest story w [] = some (pq, w') ∧
      wNew = story :: w' ∧
      (∀ p ∈ nlargest5 pq, p.2 ∈ w ∧ simtest story p.2 = some p.1) ∧
      (story ∉ w → ∀ p ∈ nlargest5 pq, p.2 ≠ story) := by
  obtain ⟨pq, w', orr, htrav, hstale, hw, _⟩ :=
    staleNewsProcedure_shape stemW stopW simtest tick story w rec wNew h
  obtain ⟨_, _, ⟨ps, hperm, hmem⟩⟩ :=
    traverseWindow_spec simtest story w [] pq w' htrav
  have hsel : ∀ p ∈ nlargest5 pq, p.2 ∈ w ∧ simtest story p.2 = some p.1 := by
    intro p hp
    have hps : p ∈ ps := by
      have := hperm.mem_iff.mp (nlargest5_mem pq p hp)
      simpa using this
    exact hmem p hps
  refine ⟨pq, w', htrav, hw, hsel, ?_⟩
  intro hnot p hp heq
  exact hnot (heq ▸ (hsel p hp).1)

/-- Claim C8, witness: the amended statement evaluated on the concrete
window of the tie-break experiment. -/
theorem C8_insert_after_selection_witness :
    ∃ pq w', traverseWindow similaritytest c4s [c4e1, c4e2, c4e3] [] =
        some (pq, w') ∧
      [c4s, c4e1, c4e2, c4e3] = c4s :: w' ∧
      (∀ p ∈ nlargest5 pq, p.2 ∈ [c4e1, c4e2, c4e3] ∧
        similaritytest c4s p.2 = some p.1) ∧
      (c4s ∉ [c4e1, c4e2, c4e3] → ∀ p ∈ nlargest5 pq, p.2 ≠ c4s) :=
  C8_insert_after_selection id [] similaritytest tickA c4s [c4e1, c4e2, c4e3]
    ⟨1000, 10, tickA, some 2, some (1/2), 1/2, false, false, false⟩
    [c4s, c4e1, c4e2, c4e3] (by with_unfolding_all decide)

/-! ### Claim C4 -/

/-- Claim C4, counterexample: `c4e1` and `c4e2` both score `1/2` against
`c4s` and `c4e1` is the more recent entry, encountered first in the
traversal — yet the emitted closest neighbor is `c4e2` (id 2): the heap's
backing array does not preserve traversal order among equal scores, so the
claimed prefer-the-more-recent tie-break fails. -/
theorem C4_tie_goes_to_older :
    similaritytest c4s c4e1 = some (1/2) ∧
    similaritytest c4s c4e2 = some (1/2) ∧
    c4e2.displayDate < c4e1.displayDate ∧
    (staleNewsProcedure id [] similaritytest tickA c4s
      [c4e1, c4e2, c4e3]).map (fun p => (p.1.closestId, p.1.closestScore)) =
      some (some 2, some (1/2)) := by
  refine ⟨by with_unfolding_all decide, by with_unfolding_all decide, by decide,
    by with_unfolding_all decide⟩

/-- Claim C4 (amended): the selection returns (up to) five pairs laid out
in non-increasing score order, they together with the dropped pairs are a
permutation of the heap contents, every dropped pair scores no higher than
every selected pair, and every selected pair is a genuinely scored
in-window entry.  The order among equal scores follows the heap's backing
array, which need not prefer the more recently encountered story. -/
theorem C4_top5_order (simtest : Story → Story → Option ℚ) (story : Story)
    (w : List Story) (pq : List (ℚ × Story)) (w' : List Story)
    (h : traverseWindow simtest story w [] = some (pq, w')) :
    List.Sorted notPairLt (nlargest5 pq) ∧
    (nlargest5 pq ++ (List.insertionSort notPairLt pq).drop 5).Perm pq ∧
    (∀ p ∈ nlargest5 pq, ∀ q ∈ (List.insertionSort notPairLt pq).drop 5,
      q.1 ≤ p.1) ∧
    (∀ p ∈ nlargest5 pq, p.2 ∈ w ∧ simtest story p.2 = some p.1) := by
  refine ⟨nlargest5_sorted pq, nlargest5_split_perm pq, nlargest5_cross pq, ?_⟩
  obtain ⟨_, _, ⟨ps, hperm, hmem⟩⟩ :=
    traverseWindow_spec simtest story w [] pq w' h
  intro p hp
  have hps : p ∈ ps := by
    have := hperm.mem_iff.mp (nlargest5_mem pq p hp)
    simpa using this
  exact hmem p hps

/-- Claim C4, witness: the amended selection properties evaluated on the
concrete heap of the tie-break experiment. -/
theorem C4_top5_order_witness :
    List.Sorted notPairLt (nlargest5 [(1/10, c4e3), (1/2, c4e2), (1/2, c4e1)]) ∧
    (nlargest5 [(1/10, c4e3), (1/2, c4e2), (1/2, c4e1)] ++
      (List.insertionSort notPairLt
        [(1/10, c4e3), (1/2, c4e2), (1/2, c4e1)]).drop 5).Perm
      [(1/10, c4e3), (1/2, c4e2), (1/2, c4e1)] ∧
    (∀ p ∈ nlargest5 [(1/10, c4e3), (1/2, c4e2), (1/2, c4e1)],
      ∀ q ∈ (List.insertionSort notPairLt
        [(1/10, c4e3), (1/2, c4e2), (1/2, c4e1)]).drop 5, q.1 ≤ p.1) ∧
    (∀ p ∈ nlargest5 [(1/10, c4e3), (1/2, c4e2), (1/2, c4e1)],
      p.2 ∈ [c4e1, c4e2, c4e3] ∧ similaritytest c4s p.2 = some p.1) :=
  C4_top5_order similaritytest c4s [c4e1, c4e2, c4e3]
    [(1/10, c4e3), (1/2, c4e2), (1/2, c4e1)] [c4e1, c4e2, c4e3]
    (by with_unfolding_all decide)

/-! ### Claim C2 -/

/-- Claim C2: on a non-empty neighbor list, whenever `stale` returns a
result, `isOld` holds exactly when the total overlap is at least `0.6`;
`isReprint` holds exactly when additionally the first (closest) neighbor's
score is at least `0.8`; `isRecomb` is `isOld` and not `isReprint`; the two
flags are never both set and each implies `isOld`; and the reported overlap
is the similarity of the story against the merged neighbor text. -/
theorem C2_classifier_flags (stemW : Token → Token) (stopW : List Token)
    (simtest : Story → Story → Option ℚ) (story : Story) (sm : ℚ)
    (st0 : Story) (tl : List (ℚ × Story)) (r : Bool × Bool × Bool × ℚ)
    (h : stale stemW stopW simtest story ((sm, st0) :: tl) = some r) :
    (r.1 = true ↔ (3 : ℚ)/5 ≤ r.2.2.2) ∧
    (r.2.1 = true ↔ (r.1 = true ∧ (4 : ℚ)/5 ≤ sm)) ∧
    (r.2.2.1 = true ↔ (r.1 = true ∧ ¬ r.2.1 = true)) ∧
    ¬(r.2.1 = true ∧ r.2.2.1 = true) ∧
    (r.2.1 = true → r.1 = true) ∧ (r.2.2.1 = true → r.1 = true) ∧
    simtest story (mkNeighborStory stemW stopW
      ((((sm, st0) :: tl).map (fun p => p.2.text)).flatten)) = some r.2.2.2 := by
  simp only [stale] at h
  split at h
  · exact absurd h (by simp)
  · rename_i ia hsim
    split_ifs at h with h1 h2
    · simp only [Option.some.injEq] at h
      subst h
      refine ⟨by simp [h1], by simp [h2], by simp, by simp, by simp, by simp, hsim⟩
    · simp only [Option.some.injEq] at h
      subst h
      refine ⟨by simp [h1], by simp [h2], by simp, by simp, by simp, by simp, hsim⟩
    · simp only [Option.some.injEq] at h
      subst h
      refine ⟨by simp [h1], ?_, by simp, by simp, by simp, by simp, hsim⟩
      simp only [Bool.false_eq_true, false_iff, not_and]
      intro hfalse
      exact absurd hfalse (by simp)

/-- Claim C2, witness: the flag laws evaluated on a concrete reprint: one
neighbor with identical tokens, overlap and closest score both `1`. -/
theorem C2_classifier_flags_witness :
    ((true : Bool) = true ↔ (3 : ℚ)/5 ≤ 1) ∧
    ((true : Bool) = true ↔ ((true : Bool) = true ∧ (4 : ℚ)/5 ≤ 1)) ∧
    ((false : Bool) = true ↔ ((true : Bool) = true ∧ ¬ (true : Bool) = true)) ∧
    ¬((true : Bool) = true ∧ (false : Bool) = true) ∧
    ((true : Bool) = true → (true : Bool) = true) ∧
    ((false : Bool) = true → (true : Bool) = true) ∧
    similaritytest c2orig (mkNeighborStory id []
      (([((1 : ℚ), c2nb)]).map (fun p => p.2.text)).flatten) = some 1 :=
  C2_classifier_flags id [] similaritytest c2orig 1 c2nb []
    (true, true, false, 1) (by with_unfolding_all decide)

/-! ### Claim C5 -/

/-- Claim C5: for an origin story with a non-empty (duplicate-free, as the
normalizer produces it) token list, the score is the intersection
cardinality of the two token sets divided by the origin's token-set
cardinality; the self-score is `1`; and every score lies in `[0, 1]`. -/
theorem C5_similarity_contract (o b : Story) (hne : o.textWords ≠ [])
    (hnd : o.textWords.Nodup) :
    similaritytest o b =
      some (((o.textWords.toFinset ∩ b.textWords.toFinset).card : ℚ) /
        (o.textWords.toFinset.card : ℚ)) ∧
    similaritytest o o = some 1 ∧
    ∀ q, similaritytest o b = some q → 0 ≤ q ∧ q ≤ 1 := by
  have hlen : ¬ o.textWords.length = 0 :=
    fun hzero => hne (List.length_eq_zero.mp hzero)
  have hint : intersection o.textWords b.textWords =
      o.textWords.filter (fun v => decide (v ∈ b.textWords)) := by
    unfold intersection
    apply List.filter_congr
    intro a _
    simp [List.contains]
  refine ⟨?_, ?_, ?_⟩
  · unfold similaritytest
    rw [if_neg hlen]
    have e1 : (intersection o.textWords b.textWords).length =
        (o.textWords.toFinset ∩ b.textWords.toFinset).card := by
      rw [hint]
      have hndf : (o.textWords.filter (fun v => decide (v ∈ b.textWords))).Nodup :=
        hnd.filter _
      rw [← List.toFinset_card_of_nodup hndf]
      congr 1
      ext a
      simp [List.mem_toFinset, Finset.mem_inter]
    have e2 : o.textWords.length = o.textWords.toFinset.card :=
      (List.toFinset_card_of_nodup hnd).symm
    rw [e1, e2]
  · unfold similaritytest
    rw [if_neg hlen]
    have hself : intersection o.textWords o.textWords = o.textWords := by
      unfold intersection
      apply List.filter_eq_self.mpr
      intro a ha
      simpa [List.contains] using ha
    rw [hself]
    congr 1
    rw [div_self]
    exact Nat.cast_ne_zero.mpr hlen
  · intro q hq
    unfold similaritytest at hq
    rw [if_neg hlen] at hq
    simp only [Option.some.injEq] at hq
    subst hq
    constructor
    · exact div_nonneg (Nat.cast_nonneg _) (Nat.cast_nonneg _)
    · rw [div_le_one (by exact_mod_cast Nat.pos_of_ne_zero hlen)]
      have hle : (intersection o.textWords b.textWords).length ≤
          o.textWords.length := by
        unfold intersection
        exact List.length_filter_le _ _
      exact_mod_cast hle

/-- Claim C5, witness: the contract evaluated on the concrete stories of
the tie-break experiment (10 tokens against 5 shared ones). -/
theorem C5_similarity_contract_witness :
    similaritytest c4s c4e1 =
      some (((c4s.textWords.toFinset ∩ c4e1.textWords.toFinset).card : ℚ) /
        (c4s.textWords.toFinset.card : ℚ)) ∧
    similaritytest c4s c4s = some 1 ∧
    ∀ q, similaritytest c4s c4e1 = some q → 0 ≤ q ∧ q ≤ 1 :=
  C5_similarity_contract c4s c4e1 (by decide) (by decide)

/-! ### Claim C6 -/

/-- Claim C6: when the selected top-5 list is empty, the classifier answers
`(false, false, false, 0)` and the emitted record carries `none` for both
the closest neighbor id and the closest score. -/
theorem C6_empty_top5_record (stemW : Token → Token) (stopW : List Token)
    (simtest : Story → Story → Option ℚ) (tick : Ticker) (story : Story)
    (w : List Story) (pq : List (ℚ × Story)) (w' : List Story)
    (h : traverseWindow simtest story w [] = some (pq, w'))
    (h5 : nlargest5 pq = []) :
    staleNewsProcedure stemW stopW simtest tick story w =
      some ({ dateEST := story.displayDate, storyId := story.accessionNumber,
              ticker := tick, closestId := none, closestScore := none,
              totalOverlap := 0, isOld := false, isReprint := false,
              isRecomb := false }, story :: w') := by
  unfold staleNewsProcedure
  rw [h]
  dsimp only
  rw [h5]
  rfl

/-- Claim C6, witness: a window whose entries are all beyond the 72 hour
horizon yields an empty top-5 and the all-null record. -/
theorem C6_empty_top5_record_witness :
    staleNewsProcedure id [] similaritytest tickA cxLateStory
      [cxStaleEntry, cxOlderEntry] =
      some ({ dateEST := 288000, storyId := 8,
              ticker := tickA, closestId := none, closestScore := none,
              totalOverlap := 0, isOld := false, isReprint := false,
              isRecomb := false }, cxLateStory :: [cxStaleEntry]) :=
  C6_empty_top5_record id [] similaritytest tickA cxLateStory
    [cxStaleEntry, cxOlderEntry] [] [cxStaleEntry] (by decide) rfl

/-! ### Claim C7 -/

/-- Claim C7: a story with no company tags is skipped entirely — no output
row and no window change — and a company tag containing `'.'` is skipped,
so the story tagged `["ABC", "ABC.O"]` yields exactly the one record for
`"ABC"`. -/
theorem C7_company_skip_rules :
    (∀ (stemW : Token → Token) (stopW : List Token)
        (simtest : Story → Story → Option ℚ) (r : RawStory)
        (rest : List RawStory) (companies : Ticker → List Story),
      (mkStory stemW stopW r).tickers = [] →
      processStories stemW stopW simtest (r :: rest) companies =
        processStories stemW stopW simtest rest companies) ∧
    (procedure id [] similaritytest [c7raw]).1.map
        (fun rec => (rec.storyId, rec.ticker)) = [(41, c7abc)] := by
  constructor
  · intro stemW stopW simtest r rest companies h
    simp [processStories, h]
  · with_unfolding_all decide

/-- Claim C7, witness: the no-company skip rule applied to a concrete
story with an empty ticker list. -/
theorem C7_company_skip_rules_witness :
    processStories id [] similaritytest [⟨0, 0, [], []⟩] (fun _ => []) =
      processStories id [] similaritytest [] (fun _ => []) :=
  C7_company_skip_rules.1 id [] similaritytest ⟨0, 0, [], []⟩ [] (fun _ => []) rfl

/-! ### Claim C9 -/

/-- Claim C9, counterexample: one story tagged `["A", "A"]` produces *two*
records for the single (story, company) pair — the ticker loop iterates
over tag occurrences without deduplication. -/
theorem C9_duplicate_tag_two_records :
    (procedure id [] similaritytest [c8dup]).1.length = 2 ∧
    ∀ r ∈ (procedure id [] similaritytest [c8dup]).1,
      r.storyId = 21 ∧ r.ticker = tickA := by
  with_unfolding_all decide

/-- Claim C9 (amended): when no exception escapes, the records emitted for
one story are in bijection with the *occurrences* of eligible (dot-free)
tickers in its tag list — one record per occurrence, duplicates included —
and each record carries the story's id. -/
theorem C9_record_per_occurrence (stemW : Token → Token) (stopW : List Token)
    (simtest : Story → Story → Option ℚ) (story : Story) :
    ∀ (ts : List Ticker) (companies : Ticker → List Story),
      (processTickers stemW stopW simtest story ts companies).2.2 = false →
      (processTickers stemW stopW simtest story ts companies).1.map
          (fun r => r.ticker) =
        ts.filter (fun t => !t.contains '.') ∧
      ∀ r ∈ (processTickers stemW stopW simtest story ts companies).1,
        r.storyId = story.accessionNumber := by
  intro ts
  induction ts with
  | nil =>
    intro companies _
    simp [processTickers]
  | cons t ts ih =>
    intro companies herr
    by_cases hdot : t.contains '.' = true
    · have heq : processTickers stemW stopW simtest story (t :: ts) companies =
          processTickers stemW stopW simtest story ts companies := by
        simp only [processTickers]
        rw [if_pos hdot]
      rw [heq] at herr ⊢
      obtain ⟨h1, h2⟩ := ih companies herr
      refine ⟨?_, h2⟩
      rw [h1, List.filter_cons_of_neg]
      rw [hdot]
      simp
    · cases hsp : staleNewsProcedure stemW stopW simtest t story (companies t) with
      | none =>
        exfalso
        have hbad : (processTickers stemW stopW simtest story
            (t :: ts) companies).2.2 = true := by
          simp only [processTickers]
          rw [if_neg hdot, hsp]
        rw [herr] at hbad
        exact Bool.false_ne_true hbad
      | some pr =>
        obtain ⟨row, w'⟩ := pr
        obtain ⟨_, _, _, _, _, _, _, hsid, htick⟩ :=
          staleNewsProcedure_shape stemW stopW simtest t story
            (companies t) row w' hsp
        have heq : processTickers stemW stopW simtest story (t :: ts) companies =
            (row :: (processTickers stemW stopW simtest story ts
                (Function.update companies t w')).1,
              (processTickers stemW stopW simtest story ts
                (Function.update companies t w')).2.1,
              (processTickers stemW stopW simtest story ts
                (Function.update companies t w')).2.2) := by
          simp only [processTickers]
          rw [if_neg hdot, hsp]
        rw [heq] at herr ⊢
        simp only at herr
        obtain ⟨h1, h2⟩ := ih (Function.update companies t w') herr
        constructor
        · simp only [List.map_cons, h1, htick]
          have hf : t.contains '.' = false := by
            cases hkind : t.contains '.'
            · rfl
            · exact absurd hkind hdot
          rw [List.filter_cons_of_pos]
          rw [hf]
          simp
        · intro r hr
          rcases List.mem_cons.mp hr with hre | hr'
          · rw [hre]; exact hsid
          · exact h2 r hr'

/-- Claim C9, witness: one eligible and one dotted ticker on a fresh
registry give exactly the one record for the eligible occurrence. -/
theorem C9_record_per_occurrence_witness :
    (processTickers id [] similaritytest c9story [tickA, c7abcO]
        (fun _ => [])).1.map (fun r => r.ticker) =
      [tickA, c7abcO].filter (fun t => !t.contains '.') ∧
    ∀ r ∈ (processTickers id [] similaritytest c9story [tickA, c7abcO]
        (fun _ => [])).1, r.storyId = c9story.accessionNumber :=
  C9_record_per_occurrence id [] similaritytest c9story [tickA, c7abcO]
    (fun _ => []) (by with_unfolding_all decide)

/-! ### Claim C3 -/

/-- Claim C3, counterexample: on the stream `[c3r1, c3r2, c3r3]` the
empty-token story `c3r2` makes scoring fail while a fresh window entry
exists; the error is *not* recorded as a failure for the pair and
processing does *not* continue — the run stops with only `c3r1`'s record
and `c3r3` is never processed. -/
theorem C3_failure_aborts_stream :
    procedure id [] similaritytest [c3r1, c3r2, c3r3] =
      ([⟨0, 31, tickA, none, none, 0, false, false, false⟩], true) := by
  with_unfolding_all decide

/-- Claim C3 (amended): scoring fails exactly when the origin story has an
empty token list (the division-by-zero condition); the failure surfaces
during the window traversal as soon as an in-horizon entry is scored, and
it propagates: the story loop stops at the failing story with the rows
written so far, never reaching the remaining stories. -/
theorem C3_empty_origin_aborts :
    (∀ o b : Story, similaritytest o b = none ↔ o.textWords = []) ∧
    (∀ (story c : Story) (rest : List Story), story.textWords = [] →
      story.displayDate - c.displayDate ≤ span72h →
      traverseWindow similaritytest story (c :: rest) [] = none) ∧
    (∀ (stemW : Token → Token) (stopW : List Token)
        (simtest : Story → Story → Option ℚ) (r : RawStory)
        (rest : List RawStory) (companies : Ticker → List Story),
      (mkStory stemW stopW r).tickers ≠ [] →
      (processTickers stemW stopW simtest (mkStory stemW stopW r)
        (mkStory stemW stopW r).tickers companies).2.2 = true →
      processStories stemW stopW simtest (r :: rest) companies =
        ((processTickers stemW stopW simtest (mkStory stemW stopW r)
          (mkStory stemW stopW r).tickers companies).1, true)) := by
  refine ⟨?_, ?_, ?_⟩
  · intro o b
    unfold similaritytest
    by_cases hl : o.textWords.length = 0
    · simp [hl, List.length_eq_zero.mp hl]
    · simp only [hl, if_false]
      constructor
      · intro hsome
        exact absurd hsome (by simp)
      · intro hempty
        exact absurd (by rw [hempty]; rfl) hl
  · intro story c rest h1 h2
    simp only [traverseWindow]
    rw [if_neg (not_lt.mpr h2)]
    have hnone : similaritytest story c = none := by
      unfold similaritytest
      rw [if_pos (by rw [h1]; rfl)]
    rw [hnone]
  · intro stemW stopW simtest r rest companies hne herr
    simp only [processStories]
    rw [if_neg hne, herr]
    simp

/-- Claim C3, witness: the abort evaluated at the concrete failing story —
the registry already holds `c3r1`'s story, processing `c3r2` errors, and
the stream stops without touching `c3r3`. -/
theorem C3_empty_origin_aborts_witness :
    processStories id [] similaritytest [c3r2, c3r3] c3companies =
      ((processTickers id [] similaritytest (mkStory id [] c3r2)
        (mkStory id [] c3r2).tickers c3companies).1, true) :=
  C3_empty_origin_aborts.2.2 id [] similaritytest c3r2 [c3r3] c3companies
    (by decide) (by with_unfolding_all decide)

end StaleNews
